import Mathlib

/-!
# Verification of the `yaml-peg` YAML/JSON parser

Shallow embedding of the repository's code (`src/node.rs`, `src/parser/mod.rs`)
together with proofs about the data model, the accessors, and the PEG parser.

Parts of the repository that are referenced from the sources in `src/` but whose
files are absent (`lib.rs` with the `Yaml` enum and the `node!` macro,
`parser/grammar.rs` with the low-level matchers, `parser/error.rs` with
`PError`) are modelled from the specification; every such definition carries a
doc comment starting with `Modelled from the spec:`.
-/

namespace YamlPeg

mutual

/-- Modelled from the spec: the `Yaml` tagged union from the missing `lib.rs`
("a closed variant over: Null; Bool(bool); Int(raw decimal text); Float(raw
text); String(decoded text); Array(ordered sequence of Node); Map(ordered
association of Node→Node); AnchorRef(alias name)").  The `Map` is the ordered
associative container: a sequence of key/value pairs in insertion order. -/
inductive Yaml : Type where
  | null : Yaml
  | bool : Bool → Yaml
  | int : String → Yaml
  | float : String → Yaml
  | str : String → Yaml
  | arr : List Node → Yaml
  | map : List (Node × Node) → Yaml
  | anchor : String → Yaml

/-- The `Node` struct of `node.rs`: document position, type assertion,
anchor name, and the wrapped YAML data, in declaration order. -/
inductive Node : Type where
  | mk : Nat → String → String → Yaml → Node

end

end YamlPeg

namespace YamlPeg

/-- Field accessor for `Node.pos`. -/
def Node.pos : Node → Nat
  | .mk p _ _ _ => p

/-- Field accessor for `Node.ty`. -/
def Node.ty : Node → String
  | .mk _ t _ _ => t

/-- Field accessor for `Node.anchor`. -/
def Node.anchorName : Node → String
  | .mk _ _ a _ => a

/-- Field accessor for `Node.yaml`. -/
def Node.yaml : Node → Yaml
  | .mk _ _ _ y => y

/-- `Node::new` of `node.rs`: wraps YAML data with zeroed metadata. -/
def Node.new (y : Yaml) : Node := .mk 0 "" "" y

mutual

/-- Modelled from the spec: the derived `PartialEq` of the `Yaml` enum from the
missing `lib.rs` — structural comparison, where contained `Node`s are compared
with `Node`'s own (metadata-blind) equality. -/
def yamlBeq : Yaml → Yaml → Bool
  | .null, .null => true
  | .bool a, .bool b => a == b
  | .int a, .int b => a == b
  | .float a, .float b => a == b
  | .str a, .str b => a == b
  | .arr a, .arr b => nodesBeq a b
  | .map a, .map b => pairsBeq a b
  | .anchor a, .anchor b => a == b
  | _, _ => false

/-- `impl PartialEq for Node` of `node.rs`: `self.yaml == rhs.yaml` —
only the wrapped value is compared. -/
def nodeBeq : Node → Node → Bool
  | .mk _ _ _ y1, .mk _ _ _ y2 => yamlBeq y1 y2

/-- Element-wise comparison of `Vec<Node>`. -/
def nodesBeq : List Node → List Node → Bool
  | [], [] => true
  | a :: as_, b :: bs => nodeBeq a b && nodesBeq as_ bs
  | _, _ => false

/-- Pair-wise comparison of the ordered map entries. -/
def pairsBeq : List (Node × Node) → List (Node × Node) → Bool
  | [], [] => true
  | (k1, v1) :: as_, (k2, v2) :: bs => nodeBeq k1 k2 && nodeBeq v1 v2 && pairsBeq as_ bs
  | _, _ => false

end

/-- `impl Hash for Node` of `node.rs`: `self.yaml.hash(state)` — the hash of a
node is whatever the hasher makes of the `yaml` field alone; `pos`, `ty` and
`anchor` are never fed to the hasher.  The hasher itself is abstract. -/
def nodeHash (hasher : Yaml → Nat) (n : Node) : Nat := hasher n.yaml

/-- Modelled from the spec: lookup in the ordered associative container
("lookup by structural (Value-only) equality of the key"), i.e. `m.get(&key)`
of the missing map type: the value of the first entry whose key is
`Node`-equal to the query. -/
def mapGet (m : List (Node × Node)) (k : Node) : Option Node :=
  match m with
  | [] => none
  | (k', v) :: rest => if nodeBeq k' k then some v else mapGet rest k

/-- Modelled from the spec: `node!("a".into())` of the missing `node!` macro —
a `Node` with zeroed metadata around `Yaml::Str`. -/
def strNode (s : String) : Node := Node.new (.str s)

/-- `impl Index<usize> for Node` of `node.rs`: arrays are indexed by position,
maps by the key `Node::new(Yaml::Int(index.to_string()))`; on a miss (or any
other variant) the node itself is returned. -/
def Node.indexNat (n : Node) (i : Nat) : Node :=
  match n.yaml with
  | .arr a => (a.get? i).getD n
  | .map m => (mapGet m (Node.new (.int (toString i)))).getD n
  | _ => n

/-- `impl Index<&str> for Node` of `node.rs`: maps are indexed by the key
`node!(index.into())`; on a miss (or a non-map) the node itself is returned. -/
def Node.indexStr (n : Node) (s : String) : Node :=
  if let .map m := n.yaml then (mapGet m (strNode s)).getD n else n

/-- Result of `get_from_map`, with the Rust `panic!("invalid search!")` on an
empty key slice made explicit as a `panicked` outcome. -/
inductive LookupResult : Type where
  | panicked : LookupResult
  | found : Node → LookupResult
  | missing : LookupResult

/-- `get_from_map` of `node.rs`: empty key slice diverges; otherwise look the
first key up, descend if the value is a map and keys remain, return the value
otherwise; an absent key yields `None` (here `missing`). -/
def get_from_map (m : List (Node × Node)) (keys : List String) : LookupResult :=
  match keys with
  | [] => .panicked
  | k :: rest =>
    match mapGet m (strNode k) with
    | some v =>
      match v.yaml with
      | .map m2 => if rest.isEmpty then .found v else get_from_map m2 rest
      | _ => .found v
    | none => .missing

/-- `Node::as_get` of `node.rs`: delegates to `get_from_map` when the value is
a map, returns `None` (here `missing`) otherwise. -/
def Node.as_get (n : Node) (keys : List String) : LookupResult :=
  if let .map m := n.yaml then get_from_map m keys else .missing

/-- Result of an `except_*` accessor: the Rust `Result<T, io::Error>` with the
caller's message as the error payload, plus an explicit `panicked` outcome. -/
inductive ExceptResult (α : Type) : Type where
  | panicked : ExceptResult α
  | ok : α → ExceptResult α
  | err : String → ExceptResult α

/-- `Node::except_get` of `node.rs`: requires a literal `Map` variant and
delegates to `get_from_map`, turning its `None` into the caller's error. -/
def Node.except_get (n : Node) (keys : List String) (e : String) : ExceptResult Node :=
  if let .map m := n.yaml then
    match get_from_map m keys with
    | .panicked => .panicked
    | .found v => .ok v
    | .missing => .err e
  else .err e

/-- `Node::except_str` of `node.rs`: a string yields itself, null yields the
empty string, anything else the caller's error. -/
def Node.except_str (n : Node) (e : String) : ExceptResult String :=
  match n.yaml with
  | .str s => .ok s
  | .null => .ok ""
  | _ => .err e

/-- `Node::except_string` of `node.rs`: same as `except_str` but cloning. -/
def Node.except_string (n : Node) (e : String) : ExceptResult String :=
  match n.yaml with
  | .str s => .ok s
  | .null => .ok ""
  | _ => .err e

/-- `Node::except_array` of `node.rs`: an array yields its length and
iterator (here the element list), null yields `(0, [])`, anything else the
caller's error. -/
def Node.except_array (n : Node) (e : String) : ExceptResult (Nat × List Node) :=
  match n.yaml with
  | .arr a => .ok (a.length, a)
  | .null => .ok (0, [])
  | _ => .err e

/-! ## The PEG parser of `parser/mod.rs`

The parser state is the `Parser` struct of `parser/mod.rs`: the borrowed source
text, the cursor byte offset `pos`, and the commit byte offset `eaten`.  The
source text is embedded as its list of characters; byte offsets are computed
from `Char.utf8Size`, exactly as Rust's `&str` byte indexing does. -/

/-- The `Parser` struct of `parser/mod.rs`: source text, cursor offset `pos`
and commit offset `eaten` (both byte offsets). -/
structure Parser : Type where
  doc : List Char
  pos : Nat
  eaten : Nat

/-- Byte length of a character list under UTF-8, mirroring `str::len`. -/
def utf8Len : List Char → Nat
  | [] => 0
  | c :: cs => c.utf8Size + utf8Len cs

/-- The suffix of the text starting at byte offset `n`, mirroring `&doc[n..]`.
When `n` lies strictly inside a character (unreachable from the parser's
operations) the whole character is kept. -/
def dropBytes : List Char → Nat → List Char
  | s, 0 => s
  | [], _ + 1 => []
  | c :: cs, n + 1 => if c.utf8Size ≤ n + 1 then dropBytes cs (n + 1 - c.utf8Size) else c :: cs

/-- The prefix of the text of byte length `n`, mirroring `&doc[..n]`. -/
def takeBytes : List Char → Nat → List Char
  | _, 0 => []
  | [], _ + 1 => []
  | c :: cs, n + 1 => if c.utf8Size ≤ n + 1 then c :: takeBytes cs (n + 1 - c.utf8Size) else []

/-- `str::is_char_boundary` of the Rust standard library: `p` is `0`, the total
byte length, or the byte offset at which some character of the text starts. -/
def is_char_boundary : List Char → Nat → Bool
  | _, 0 => true
  | [], _ + 1 => false
  | c :: cs, n + 1 => if c.utf8Size ≤ n + 1 then is_char_boundary cs (n + 1 - c.utf8Size) else false

/-- The error type of the missing `parser/error.rs`.  Modelled from the spec:
"**Mismatch** (non-terminal; caller tries next alternative) vs
**Terminate(offset, tag)** (fatal; propagates to the entry point unchanged)". -/
inductive PErr : Type where
  | mismatch : PErr
  | terminate : Nat → String → PErr
deriving DecidableEq

namespace Parser

/-- `Parser::new`: cursor and commit offset both start at `0`. -/
def new (text : String) : Parser := ⟨text.data, 0, 0⟩

/-- `Parser::with_cursor`: accept the supplied starting offset only if it lies
on a character boundary of the text; otherwise leave the state unchanged. -/
def with_cursor (s : Parser) (p : Nat) : Parser :=
  if is_char_boundary s.doc p then { s with pos := p, eaten := p } else s

/-- The unconsumed tail of the source from the cursor (`Parser::food`,
the spec's `remaining()`). -/
def food (s : Parser) : List Char := dropBytes s.doc s.pos

/-- Modelled from the spec: `matchByte(b)` — "succeeds and advances the cursor
by one if the byte at the cursor equals `b`; otherwise fails without moving the
cursor" (`Parser::sym` of the missing `parser/grammar.rs`; only used with ASCII
bytes, so matching one character is matching one byte). -/
def sym (c : Char) (s : Parser) : Option Parser :=
  match s.food with
  | x :: _ => if x = c then some { s with pos := s.pos + c.utf8Size } else none
  | [] => none

/-- Modelled from the spec: `matchLiteral(bytes)` — "same contract for a
literal multi-byte sequence" (`Parser::seq` of the missing grammar file). -/
def seq (lit : List Char) (s : Parser) : Option Parser :=
  if lit.isPrefixOf s.food then some { s with pos := s.pos + utf8Len lit } else none

/-- Whitespace/separator characters skipped by the ignorable-content rules. -/
def isWs (c : Char) : Bool := c == ' ' || c == '\t' || c == '\n' || c == '\r'

/-- New cursor offset after skipping the longest prefix of the food that
satisfies `p`, accumulating each skipped character's byte size. -/
def skipWhileAux (p : Char → Bool) : List Char → Nat → Nat
  | c :: cs, q => if p c then skipWhileAux p cs (q + c.utf8Size) else q
  | [], q => q

/-- Advance the cursor over the longest prefix of the food satisfying `p`. -/
def skipWhile (p : Char → Bool) (s : Parser) : Parser :=
  { s with pos := skipWhileAux p s.food s.pos }

/-- Modelled from the spec: `skipIgnorable()` / `skipInvalidPrefix` — "consumes
zero or more separator/whitespace/comment bytes; always succeeds, may consume
nothing" (`Parser::inv`, called with `TakeOpt::ZeroMore` in `full_doc`). -/
def inv (s : Parser) : Parser := skipWhile isWs s

/-- Modelled from the spec: the ignorable gap between documents — like
`skipIgnorable()`; `Parser::gap` is only ever used under
`unwrap_or_default()`, so only its skipping effect is observable. -/
def gap (s : Parser) : Parser := skipWhile isWs s

/-- `commit()` (`Parser::eat` without using the returned slice): move the
commit offset up to the cursor. -/
def eat (s : Parser) : Parser := { s with eaten := s.pos }

/-- `Parser::eat` when the returned slice is used: the text between the commit
offset and the cursor, together with the committed state. -/
def eatStr (s : Parser) : List Char × Parser :=
  (takeBytes (dropBytes s.doc s.eaten) (s.pos - s.eaten), { s with eaten := s.pos })

/-- Modelled from the spec: `tryRule(subrule)` — "executes `subrule`; on
success calls `commit()` and returns the captured text; on failure performs no
mutation" (`Parser::token`). -/
def token (rule : Parser → Option Parser) (s : Parser) : Option (String × Parser) :=
  (rule s).map fun s' => ((eatStr s').1.asString, (eatStr s').2)

/-- Characters allowed in anchor/alias/tag names.  Modelled from the spec's
glossary (`&name`, `*name`, `!!tag`). -/
def identChar (c : Char) : Bool := c.isAlphanum || c == '_' || c == '-'

/-- One or more name characters. -/
def ident1 (s : Parser) : Option Parser :=
  match s.food with
  | c :: _ => if identChar c then some (skipWhile identChar s) else none
  | [] => none

/-- Modelled from the spec: the anchor-definition token `&name`
(`Parser::anchor` of the missing grammar file). -/
def anchorRule (s : Parser) : Option Parser := (sym '&' s).bind ident1

/-- Modelled from the spec: the explicit type-tag token `!!tag`
(`Parser::ty` of the missing grammar file). -/
def tyRule (s : Parser) : Option Parser := (seq "!!".data s).bind ident1

/-- Modelled from the spec: the alias-reference grammar `*name`
(`Parser::anchor_use` of the missing grammar file). -/
def anchor_use (s : Parser) : Option Parser := (sym '*' s).bind ident1

/-- One or more decimal digits. -/
def digits1 (s : Parser) : Option Parser :=
  match s.food with
  | c :: _ => if c.isDigit then some (skipWhile Char.isDigit s) else none
  | [] => none

/-- An optional leading sign. -/
def signOpt (s : Parser) : Parser := (((sym '-' s).orElse fun _ => sym '+' s).getD s)

/-- Modelled from the spec: the integer literal grammar — an optional sign and
one or more digits (`Parser::int` of the missing grammar file). -/
def int_rule (s : Parser) : Option Parser := digits1 (signOpt s)

/-- Modelled from the spec: the floating-point literal grammar — an optional
sign, one or more digits, a decimal point, then any further digits
(`Parser::float` of the missing grammar file). -/
def float_rule (s : Parser) : Option Parser :=
  (digits1 (signOpt s)).bind fun s2 => (sym '.' s2).map fun s3 => skipWhile Char.isDigit s3

/-- Modelled from the spec: the `NaN` literal (`Parser::nan`). -/
def nan_rule (s : Parser) : Option Parser := seq "NaN".data s

/-- Modelled from the spec: the signed infinity literal; the boolean is `true`
for `inf` and `false` for `-inf` (`Parser::inf`). -/
def inf_rule (s : Parser) : Option (Bool × Parser) :=
  match seq "inf".data s with
  | some s' => some (true, s')
  | none => (seq "-inf".data s).map fun s' => (false, s')

/-- Scan for the closing double quote: the content before it and the byte
length consumed including the quote itself. -/
def scanDQuote : List Char → Option (List Char × Nat)
  | [] => none
  | c :: cs =>
    if c = '"' then some ([], 1)
    else (scanDQuote cs).map fun p => (c :: p.1, p.2 + c.utf8Size)

/-- Characters that end a plain flow scalar: the flow indicators
`, : [ ] \x7b \x7d`, the comment marker `#`, and line breaks (written by code
point to keep the source free of brace literals). -/
def isFlowEnd (c : Char) : Bool :=
  c.toNat == 44 || c.toNat == 58 || c.toNat == 91 || c.toNat == 93 ||
  c.toNat == 123 || c.toNat == 125 || c.toNat == 35 || c.toNat == 10 || c.toNat == 13

/-- Modelled from the spec: the quoted/flow string grammar
(`Parser::string_flow`) — a double-quoted run up to the closing quote (failing
as a mismatch when unterminated), or a non-empty plain run up to a flow
indicator, comment marker, or line break; it returns the raw matched content,
which the scalar rule then escape-processes and whitespace-folds.  The
theorems below rely only on its failure on empty input. -/
def string_flow (s : Parser) : Option (List Char × Parser) :=
  match s.food with
  | [] => none
  | c :: rest =>
    if c = '"' then
      (scanDQuote rest).map fun p => (p.1, { s with pos := s.pos + 1 + p.2 })
    else if ((c :: rest).takeWhile fun x => !isFlowEnd x).isEmpty then none
    else some ((c :: rest).takeWhile fun x => !isFlowEnd x,
      { s with pos := s.pos + utf8Len ((c :: rest).takeWhile fun x => !isFlowEnd x) })

/-- Modelled from the spec: whitespace folding (`Parser::merge_ws`) — every
maximal run of whitespace becomes a single space.  The boolean records whether
the previous character was folded whitespace. -/
def mergeWsAux : Bool → List Char → List Char
  | _, [] => []
  | inWs, c :: rest =>
    if isWs c then (if inWs then mergeWsAux true rest else ' ' :: mergeWsAux true rest)
    else c :: mergeWsAux false rest

/-- Whitespace folding entry point. -/
def merge_ws (l : List Char) : List Char := mergeWsAux false l

/-- Modelled from the spec: escape processing (`Parser::escape`) — a backslash
makes the next character literal, with `n`/`t` decoded to the control
characters. -/
def escape : List Char → List Char
  | [] => []
  | '\\' :: c :: rest => (if c = 'n' then '\n' else if c = 't' then '\t' else c) :: escape rest
  | c :: rest => c :: escape rest

/-- `node!(yaml, pos, anchor, ty)` followed by the final `self.eat()` of
`Parser::scalar`. -/
def mkNode (y : Yaml) (pos : Nat) (anchor ty : String) (s : Parser) : Node × Parser :=
  (Node.mk pos ty anchor y, eat s)

/-- The first two lines of `Parser::scalar`: the optional anchor-definition
token and the optional type-tag token, each `unwrap_or_default()`.  Returns
the anchor text, the tag text, and the state at which the offset is then
recorded. -/
def scalarMeta (s0 : Parser) : String × String × Parser :=
  let ap := match token anchorRule s0 with | some p => p | none => ("", s0)
  let tp := match token tyRule ap.2 with | some p => p | none => ("", ap.2)
  (ap.1, tp.1, tp.2)

/-- The alternative cascade of `Parser::scalar` after the offset `pos` has
been recorded: the `if/else if` chain over the scalar alternatives, ending in
`Err(PError::Terminate(self.pos, "value"))`. -/
def scalarBody (pos : Nat) (anchor ty : String) (s2 : Parser) : Except PErr (Node × Parser) :=
  match sym '~' s2 with
  | some s3 => .ok (mkNode .null pos anchor ty s3)
  | none =>
  match seq "null".data s2 with
  | some s3 => .ok (mkNode .null pos anchor ty s3)
  | none =>
  match seq "true".data s2 with
  | some s3 => .ok (mkNode (.bool true) pos anchor ty s3)
  | none =>
  match seq "false".data s2 with
  | some s3 => .ok (mkNode (.bool false) pos anchor ty s3)
  | none =>
  match float_rule s2 with
  | some s3 => .ok (mkNode (.float (eatStr s3).1.asString) pos anchor ty (eatStr s3).2)
  | none =>
  match nan_rule s2 with
  | some s3 => .ok (mkNode (.float "NaN") pos anchor ty s3)
  | none =>
  match inf_rule s2 with
  | some bp => .ok (mkNode (.float (if bp.1 then "inf" else "-inf")) pos anchor ty bp.2)
  | none =>
  match int_rule s2 with
  | some s3 => .ok (mkNode (.int (eatStr s3).1.asString) pos anchor ty (eatStr s3).2)
  | none =>
  match string_flow s2 with
  | some p => .ok (mkNode (.str (escape (merge_ws p.1)).asString) pos anchor ty p.2)
  | none =>
  match anchor_use s2 with
  | some s3 => .ok (mkNode (.anchor (eatStr s3).1.asString) pos anchor ty (eatStr s3).2)
  | none => .error (.terminate s2.pos "value")

/-- `Parser::scalar` of `parser/mod.rs`: optional anchor token, optional
type-tag token, record the offset, then the fixed cascade of alternatives;
when none matches, fail terminally with tag `"value"`. -/
def scalar (s0 : Parser) : Except PErr (Node × Parser) :=
  let m := scalarMeta s0
  scalarBody m.2.2.pos m.1 m.2.1 m.2.2

/-- Modelled from the spec: one alternative of §4.2's ordered choice — a
function that either produces the `Yaml` value and the advanced state, or
fails recoverably. -/
def firstSuccess : List (Parser → Option (Yaml × Parser)) → Parser → Option (Yaml × Parser)
  | [], _ => none
  | alt :: rest, s =>
    match alt s with
    | some r => some r
    | none => firstSuccess rest s

/-- Spec alternative 1: `~` → Null. -/
def altNullTilde (s : Parser) : Option (Yaml × Parser) :=
  (sym '~' s).map fun s' => (Yaml.null, s')

/-- Spec alternative 1 (second form): literal `null` → Null. -/
def altNullWord (s : Parser) : Option (Yaml × Parser) :=
  (seq "null".data s).map fun s' => (Yaml.null, s')

/-- Spec alternative 2: literal `true` → Bool. -/
def altTrue (s : Parser) : Option (Yaml × Parser) :=
  (seq "true".data s).map fun s' => (Yaml.bool true, s')

/-- Spec alternative 2 (second form): literal `false` → Bool. -/
def altFalse (s : Parser) : Option (Yaml × Parser) :=
  (seq "false".data s).map fun s' => (Yaml.bool false, s')

/-- Spec alternative 3: floating-point literal → Float, raw text retained. -/
def altFloat (s : Parser) : Option (Yaml × Parser) :=
  (float_rule s).map fun s' => (Yaml.float (eatStr s').1.asString, (eatStr s').2)

/-- Spec alternative 4: `NaN` literal → Float("NaN"). -/
def altNaN (s : Parser) : Option (Yaml × Parser) :=
  (nan_rule s).map fun s' => (Yaml.float "NaN", s')

/-- Spec alternative 5: signed infinity → Float("inf") or Float("-inf"). -/
def altInf (s : Parser) : Option (Yaml × Parser) :=
  (inf_rule s).map fun bp => (Yaml.float (if bp.1 then "inf" else "-inf"), bp.2)

/-- Spec alternative 6: integer literal → Int, raw text retained. -/
def altInt (s : Parser) : Option (Yaml × Parser) :=
  (int_rule s).map fun s' => (Yaml.int (eatStr s').1.asString, (eatStr s').2)

/-- Spec alternative 7: quoted/flow string, escape-processed and
whitespace-folded → String. -/
def altString (s : Parser) : Option (Yaml × Parser) :=
  (string_flow s).map fun p => (Yaml.str (escape (merge_ws p.1)).asString, p.2)

/-- Spec alternative 8: alias reference `*name` → AnchorRef. -/
def altAlias (s : Parser) : Option (Yaml × Parser) :=
  (anchor_use s).map fun s' => (Yaml.anchor (eatStr s').1.asString, (eatStr s').2)

/-- Modelled from the spec: the fixed priority order of §4.2 — null, bool,
float, NaN, signed infinity, int, quoted/flow string, alias reference. -/
def specAlternatives : List (Parser → Option (Yaml × Parser)) :=
  [altNullTilde, altNullWord, altTrue, altFalse, altFloat, altNaN, altInf,
   altInt, altString, altAlias]

/-- Modelled from the spec: the scalar rule exactly as §4.2 words it —
optionally match an anchor token and a type-tag token, record the current
offset, try the alternatives in the fixed order with first success winning,
and fail terminally tagged `"value"` at the recorded offset otherwise. -/
def scalarSpec (s0 : Parser) : Except PErr (Node × Parser) :=
  let m := scalarMeta s0
  let pos := m.2.2.pos
  match firstSuccess specAlternatives m.2.2 with
  | some (y, s3) => .ok (mkNode y pos m.1 m.2.1 s3)
  | none => .error (.terminate pos "value")

/-- `Parser::doc` of `parser/mod.rs`: one scalar, an optional document-end
marker `...`, then commit. -/
def docRule (s : Parser) : Except PErr (Node × Parser) :=
  match scalar s with
  | .error e => .error e
  | .ok (n, s1) => .ok (n, eat ((seq "...".data s1).getD s1))

/-- The `while let Some((i, _)) = ch.next()` loop of `Parser::full_doc`,
with an explicit fuel argument (`none` = fuel exhausted; `fullDoc_total`
below shows the bound passed by `full_doc` is never reached).  The iterator
`ch` is recreated from `food()` after every iteration, so the first
`char_indices` index `i` is always `0` and `self.pos += i` never moves the
cursor. -/
def fdLoop : Nat → Parser → List Node → Option (Except PErr (List Node × Parser))
  | 0, _, _ => none
  | fuel + 1, s, acc =>
    match s.food with
    | [] => some (.ok (acc, s))
    | _ :: _ =>
      let s1 := inv s
      match seq "---".data s1 with
      | none => some (.error (.terminate s1.pos "splitter"))
      | some s2 =>
        let s3 := eat (gap s2)
        match docRule s3 with
        | .error e => some (.error e)
        | .ok (n, s4) => fdLoop fuel s4 (acc ++ [n])

/-- `Parser::full_doc` of `parser/mod.rs`: skip ignorable content, an optional
`---`, an optional gap, commit, one document, then the splitter loop over the
remaining input. -/
def full_doc (s : Parser) : Option (Except PErr (List Node × Parser)) :=
  let s1 := inv s
  let s2 := (seq "---".data s1).getD s1
  let s3 := eat (gap s2)
  match docRule s3 with
  | .error e => .some (.error e)
  | .ok (n, s4) => fdLoop (utf8Len s4.doc + 1) s4 [n]

end Parser

/-- The crate-level `parse` entry point of `parser/mod.rs`: run `full_doc` on a
fresh parser over the whole text. -/
def parse (text : String) : Option (Except PErr (List Node)) :=
  (Parser.full_doc (Parser.new text)).map fun r => r.map Prod.fst

/-! ## Lemmas about the data model -/

mutual

/-- `yamlBeq` is reflexive. -/
theorem yamlBeq_refl : (y : Yaml) → yamlBeq y y = true
  | .null => by simp [yamlBeq]
  | .bool _ => by simp [yamlBeq]
  | .int _ => by simp [yamlBeq]
  | .float _ => by simp [yamlBeq]
  | .str _ => by simp [yamlBeq]
  | .arr a => by simpa [yamlBeq] using nodesBeq_refl a
  | .map m => by simpa [yamlBeq] using pairsBeq_refl m
  | .anchor _ => by simp [yamlBeq]

/-- `nodeBeq` is reflexive. -/
theorem nodeBeq_refl : (n : Node) → nodeBeq n n = true
  | .mk _ _ _ y => by simpa [nodeBeq] using yamlBeq_refl y

/-- `nodesBeq` is reflexive. -/
theorem nodesBeq_refl : (l : List Node) → nodesBeq l l = true
  | [] => by simp [nodesBeq]
  | n :: rest => by simp [nodesBeq, nodeBeq_refl n, nodesBeq_refl rest]

/-- `pairsBeq` is reflexive. -/
theorem pairsBeq_refl : (l : List (Node × Node)) → pairsBeq l l = true
  | [] => by simp [pairsBeq]
  | (k, v) :: rest => by simp [pairsBeq, nodeBeq_refl k, nodeBeq_refl v, pairsBeq_refl rest]

end

/-! ## Lemmas about the parser -/

namespace Parser

/-- Cursor discipline between two states: the text is unchanged and the
cursor has not moved backwards. -/
def Advances (s s' : Parser) : Prop := s'.doc = s.doc ∧ s.pos ≤ s'.pos

theorem advancesSelf (s : Parser) : Advances s s := ⟨rfl, Nat.le_refl _⟩

theorem Advances.trans {a b c : Parser} (h1 : Advances a b) (h2 : Advances b c) :
    Advances a c := ⟨h2.1.trans h1.1, h1.2.trans h2.2⟩

theorem sym_adv {c : Char} {s s' : Parser} (h : sym c s = some s') : Advances s s' := by
  unfold sym at h
  rcases hf : s.food with _ | ⟨x, rest⟩ <;> rw [hf] at h
  · exact absurd h (by simp)
  · by_cases hx : x = c
    · simp only [hx, if_pos rfl] at h
      cases h
      exact ⟨rfl, Nat.le_add_right _ _⟩
    · simp [hx] at h

theorem seq_adv {l : List Char} {s s' : Parser} (h : seq l s = some s') : Advances s s' := by
  unfold seq at h
  by_cases hp : l.isPrefixOf s.food
  · simp only [hp, if_pos] at h
    cases h
    exact ⟨rfl, Nat.le_add_right _ _⟩
  · simp [hp] at h

theorem seq_pos {l : List Char} {s s' : Parser} (h : seq l s = some s') :
    s'.pos = s.pos + utf8Len l := by
  unfold seq at h
  by_cases hp : l.isPrefixOf s.food
  · simp only [hp, if_pos] at h
    cases h
    rfl
  · simp [hp] at h

theorem skipWhileAux_le (p : Char → Bool) (l : List Char) (q : Nat) :
    q ≤ skipWhileAux p l q := by
  induction l generalizing q with
  | nil => exact Nat.le_refl _
  | cons c cs ih =>
    unfold skipWhileAux
    by_cases hc : p c
    · simp only [hc, if_pos]
      exact (Nat.le_add_right _ _).trans (ih _)
    · simp [hc]

theorem skipWhile_adv (p : Char → Bool) (s : Parser) : Advances s (skipWhile p s) :=
  ⟨rfl, skipWhileAux_le _ _ _⟩

theorem inv_adv (s : Parser) : Advances s (inv s) := skipWhile_adv _ _

theorem gap_adv (s : Parser) : Advances s (gap s) := skipWhile_adv _ _

theorem eat_adv (s : Parser) : Advances s (eat s) := ⟨rfl, Nat.le_refl _⟩

theorem eatStr_adv (s : Parser) : Advances s (eatStr s).2 := ⟨rfl, Nat.le_refl _⟩

theorem token_adv {rule : Parser → Option Parser} {s : Parser} {p : String × Parser}
    (hr : ∀ t t', rule t = some t' → Advances t t')
    (h : token rule s = some p) : Advances s p.2 := by
  unfold token at h
  rcases hs : rule s with _ | s' <;> rw [hs] at h
  · exact absurd h (by simp)
  · simp only [Option.map_some'] at h
    cases h
    exact (hr _ _ hs).trans (eatStr_adv _)

theorem ident1_adv {s s' : Parser} (h : ident1 s = some s') : Advances s s' := by
  unfold ident1 at h
  rcases hf : s.food with _ | ⟨c, rest⟩ <;> rw [hf] at h
  · exact absurd h (by simp)
  · by_cases hc : identChar c
    · simp only [hc, if_pos] at h
      cases h
      exact skipWhile_adv _ _
    · simp [hc] at h

theorem anchorRule_adv {s s' : Parser} (h : anchorRule s = some s') : Advances s s' := by
  unfold anchorRule at h
  rcases hs : sym '&' s with _ | s1 <;> rw [hs] at h
  · exact absurd h (by simp)
  · exact (sym_adv hs).trans (ident1_adv h)

theorem tyRule_adv {s s' : Parser} (h : tyRule s = some s') : Advances s s' := by
  unfold tyRule at h
  rcases hs : seq "!!".data s with _ | s1 <;> rw [hs] at h
  · exact absurd h (by simp)
  · exact (seq_adv hs).trans (ident1_adv h)

theorem anchor_use_adv {s s' : Parser} (h : anchor_use s = some s') : Advances s s' := by
  unfold anchor_use at h
  rcases hs : sym '*' s with _ | s1 <;> rw [hs] at h
  · exact absurd h (by simp)
  · exact (sym_adv hs).trans (ident1_adv h)

theorem digits1_adv {s s' : Parser} (h : digits1 s = some s') : Advances s s' := by
  unfold digits1 at h
  rcases hf : s.food with _ | ⟨c, rest⟩ <;> rw [hf] at h
  · exact absurd h (by simp)
  · by_cases hc : c.isDigit
    · simp only [hc, if_pos] at h
      cases h
      exact skipWhile_adv _ _
    · simp [hc] at h

theorem signOpt_adv (s : Parser) : Advances s (signOpt s) := by
  unfold signOpt
  rcases hm : sym '-' s with _ | s1
  · rcases hp : sym '+' s with _ | s1
    · simpa [Option.orElse, hm, hp] using advancesSelf s
    · simpa [Option.orElse, hm, hp] using sym_adv hp
  · simpa [Option.orElse, hm] using sym_adv hm

theorem int_rule_adv {s s' : Parser} (h : int_rule s = some s') : Advances s s' :=
  (signOpt_adv s).trans (digits1_adv h)

theorem float_rule_adv {s s' : Parser} (h : float_rule s = some s') : Advances s s' := by
  unfold float_rule at h
  rcases hd : digits1 (signOpt s) with _ | s2 <;> rw [hd] at h
  · exact absurd h (by simp)
  · simp only [Option.some_bind] at h
    rcases hp : sym '.' s2 with _ | s3 <;> rw [hp] at h
    · exact absurd h (by simp)
    · simp only [Option.map_some'] at h
      cases h
      exact (((signOpt_adv s).trans (digits1_adv hd)).trans (sym_adv hp)).trans
        (skipWhile_adv _ _)

theorem inf_rule_adv {s : Parser} {bp : Bool × Parser} (h : inf_rule s = some bp) :
    Advances s bp.2 := by
  unfold inf_rule at h
  rcases hi : seq "inf".data s with _ | s1 <;> rw [hi] at h
  · rcases hn : seq "-inf".data s with _ | s1 <;> rw [hn] at h
    · exact absurd h (by simp)
    · simp only [Option.map_some'] at h
      cases h
      exact seq_adv hn
  · cases h
    exact seq_adv hi

theorem string_flow_adv {s : Parser} {p : List Char × Parser}
    (h : string_flow s = some p) : Advances s p.2 := by
  unfold string_flow at h
  rcases hf : s.food with _ | ⟨c, rest⟩ <;> rw [hf] at h
  · exact absurd h (by simp)
  · by_cases hq : c = '"'
    · simp only [if_pos hq] at h
      rcases hs : scanDQuote rest with _ | q <;> rw [hs] at h
      · exact absurd h (by simp)
      · simp only [Option.map_some'] at h
        cases h
        refine ⟨rfl, ?_⟩
        show s.pos ≤ s.pos + 1 + q.2
        omega
    · simp only [if_neg hq] at h
      by_cases he : ((c :: rest).takeWhile fun x => !isFlowEnd x).isEmpty
      · simp only [if_pos he] at h
        exact absurd h (by simp)
      · simp only [if_neg he] at h
        cases h
        refine ⟨rfl, ?_⟩
        show s.pos ≤ s.pos + utf8Len ((c :: rest).takeWhile fun x => !isFlowEnd x)
        omega

theorem scalarMeta_adv (s0 : Parser) : Advances s0 (scalarMeta s0).2.2 := by
  unfold scalarMeta
  rcases ha : token anchorRule s0 with _ | ap
  · rcases ht : token tyRule s0 with _ | tp
    · simpa [ha, ht] using advancesSelf s0
    · simpa [ha, ht] using token_adv (fun _ _ => tyRule_adv) ht
  · rcases ht : token tyRule ap.2 with _ | tp
    · simpa [ha, ht] using token_adv (fun _ _ => anchorRule_adv) ha
    · simpa [ha, ht] using
        (token_adv (fun _ _ => anchorRule_adv) ha).trans
          (token_adv (fun _ _ => tyRule_adv) ht)

theorem scalarBody_adv {pos : Nat} {anchor ty : String} {s2 s' : Parser} {n : Node}
    (h : scalarBody pos anchor ty s2 = .ok (n, s')) : Advances s2 s' := by
  unfold scalarBody at h
  rcases h1 : sym '~' s2 with _ | s3 <;> rw [h1] at h
  case some =>
    simp only [mkNode, Except.ok.injEq, Prod.mk.injEq] at h
    exact h.2 ▸ (sym_adv h1).trans (eat_adv _)
  rcases h2 : seq "null".data s2 with _ | s3 <;> rw [h2] at h
  case some =>
    simp only [mkNode, Except.ok.injEq, Prod.mk.injEq] at h
    exact h.2 ▸ (seq_adv h2).trans (eat_adv _)
  rcases h3 : seq "true".data s2 with _ | s3 <;> rw [h3] at h
  case some =>
    simp only [mkNode, Except.ok.injEq, Prod.mk.injEq] at h
    exact h.2 ▸ (seq_adv h3).trans (eat_adv _)
  rcases h4 : seq "false".data s2 with _ | s3 <;> rw [h4] at h
  case some =>
    simp only [mkNode, Except.ok.injEq, Prod.mk.injEq] at h
    exact h.2 ▸ (seq_adv h4).trans (eat_adv _)
  rcases h5 : float_rule s2 with _ | s3 <;> rw [h5] at h
  case some =>
    simp only [mkNode, Except.ok.injEq, Prod.mk.injEq] at h
    exact h.2 ▸ ((float_rule_adv h5).trans (eatStr_adv _)).trans (eat_adv _)
  rcases h6 : nan_rule s2 with _ | s3 <;> rw [h6] at h
  case some =>
    simp only [mkNode, Except.ok.injEq, Prod.mk.injEq] at h
    exact h.2 ▸ (seq_adv h6).trans (eat_adv _)
  rcases h7 : inf_rule s2 with _ | bp <;> rw [h7] at h
  case some =>
    simp only [mkNode, Except.ok.injEq, Prod.mk.injEq] at h
    exact h.2 ▸ (inf_rule_adv h7).trans (eat_adv _)
  rcases h8 : int_rule s2 with _ | s3 <;> rw [h8] at h
  case some =>
    simp only [mkNode, Except.ok.injEq, Prod.mk.injEq] at h
    exact h.2 ▸ ((int_rule_adv h8).trans (eatStr_adv _)).trans (eat_adv _)
  rcases h9 : string_flow s2 with _ | p <;> rw [h9] at h
  case some =>
    simp only [mkNode, Except.ok.injEq, Prod.mk.injEq] at h
    exact h.2 ▸ (string_flow_adv h9).trans (eat_adv _)
  rcases h10 : anchor_use s2 with _ | s3 <;> rw [h10] at h
  case some =>
    simp only [mkNode, Except.ok.injEq, Prod.mk.injEq] at h
    exact h.2 ▸ ((anchor_use_adv h10).trans (eatStr_adv _)).trans (eat_adv _)
  exact absurd h (by simp)

theorem scalar_adv {s0 s' : Parser} {n : Node} (h : scalar s0 = .ok (n, s')) :
    Advances s0 s' := by
  unfold scalar at h
  exact (scalarMeta_adv s0).trans (scalarBody_adv h)

theorem docRule_adv {s s' : Parser} {n : Node} (h : docRule s = .ok (n, s')) :
    Advances s s' := by
  unfold docRule at h
  rcases hs : scalar s with e | ⟨n1, s1⟩ <;> rw [hs] at h
  · exact absurd h (by simp)
  · cases h
    rcases hq : seq "...".data s1 with _ | s2
    · simpa [hq] using (scalar_adv hs).trans (eat_adv _)
    · simpa [hq] using ((scalar_adv hs).trans (seq_adv hq)).trans (eat_adv _)

theorem dropBytes_eq_nil : (l : List Char) → (n : Nat) → utf8Len l ≤ n → dropBytes l n = []
  | [], 0, _ => rfl
  | [], _ + 1, _ => rfl
  | c :: cs, n, h => by
    have hc := Char.utf8Size_pos c
    have hlen : c.utf8Size + utf8Len cs ≤ n := by simpa [utf8Len] using h
    rcases n with _ | m
    · omega
    · unfold dropBytes
      rw [if_pos (by omega)]
      exact dropBytes_eq_nil cs (m + 1 - c.utf8Size) (by omega)

theorem pos_lt_of_food_ne_nil {s : Parser} (h : s.food ≠ []) : s.pos < utf8Len s.doc := by
  by_contra hh
  exact h (dropBytes_eq_nil s.doc s.pos (by omega))

/-- Fuel adequacy for the splitter loop: one unit of fuel more than the number
of unconsumed bytes is always enough, because every accepted iteration moves
the cursor strictly forward (the `---` match alone advances it by 3). -/
theorem fdLoop_adequate : ∀ (fuel : Nat) (s : Parser) (acc : List Node),
    utf8Len s.doc ≤ s.pos + fuel → (fdLoop (fuel + 1) s acc).isSome = true := by
  intro fuel
  induction fuel with
  | zero =>
    intro s acc hle
    rcases hf : s.food with _ | ⟨c, cs⟩
    · simp [fdLoop, hf]
    · have := pos_lt_of_food_ne_nil (s := s) (by simp [hf])
      omega
  | succ fuel ih =>
    intro s acc hle
    rcases hf : s.food with _ | ⟨c, cs⟩
    · simp [fdLoop, hf]
    · rcases hseq : seq "---".data (inv s) with _ | s2
      · simp [fdLoop, hf, hseq]
      · rcases hdoc : docRule (eat (gap s2)) with e | ⟨n, s4⟩
        · simp [fdLoop, hf, hseq, hdoc]
        · have hstep : (fdLoop (fuel + 1) s4 (acc ++ [n])).isSome = true := by
            apply ih
            have hd3 : utf8Len ("---".data) = 3 := rfl
            have h2 := seq_pos hseq
            have hinv := inv_adv s
            have hgap := gap_adv s2
            have hseqdoc : s2.doc = s.doc := (seq_adv hseq).1.trans hinv.1
            have hdadv := docRule_adv hdoc
            have h4doc : s4.doc = s.doc := by
              rw [hdadv.1]
              simpa [eat] using hgap.1.trans hseqdoc
            have h4pos : s2.pos ≤ s4.pos := by
              have := hdadv.2
              simpa [eat] using hgap.2.trans this
            rw [h4doc]
            rw [hd3] at h2
            have := hinv.2
            omega
          simpa [fdLoop, hf, hseq, hdoc] using hstep

/-- `full_doc` never exhausts its fuel: the loop terminates for every state. -/
theorem full_doc_total (s : Parser) : (full_doc s).isSome = true := by
  unfold full_doc
  rcases hdoc : docRule (eat (gap ((seq "---".data (inv s)).getD (inv s)))) with e | ⟨n, s4⟩
  · simp [hdoc]
  · have := fdLoop_adequate (utf8Len s4.doc) s4 [n] (Nat.le_add_left _ _)
    simpa [hdoc] using this

/-- The alternative cascade of `Parser::scalar` is exactly the spec's ordered
choice over `specAlternatives`, with the terminal `"value"` failure at the
recorded offset when every alternative fails. -/
theorem scalarBody_eq_firstSuccess (pos : Nat) (anchor ty : String) (s2 : Parser) :
    scalarBody pos anchor ty s2 =
      match firstSuccess specAlternatives s2 with
      | some (y, s3) => .ok (mkNode y pos anchor ty s3)
      | none => .error (.terminate s2.pos "value") := by
  rcases h1 : sym '~' s2 with _ | s3
  case some =>
    simp [scalarBody, firstSuccess, specAlternatives, altNullTilde, h1]
  rcases h2 : seq "null".data s2 with _ | s3
  case some =>
    simp [scalarBody, firstSuccess, specAlternatives, altNullTilde, altNullWord, h1, h2]
  rcases h3 : seq "true".data s2 with _ | s3
  case some =>
    simp [scalarBody, firstSuccess, specAlternatives, altNullTilde, altNullWord, altTrue,
      h1, h2, h3]
  rcases h4 : seq "false".data s2 with _ | s3
  case some =>
    simp [scalarBody, firstSuccess, specAlternatives, altNullTilde, altNullWord, altTrue,
      altFalse, h1, h2, h3, h4]
  rcases h5 : float_rule s2 with _ | s3
  case some =>
    simp [scalarBody, firstSuccess, specAlternatives, altNullTilde, altNullWord, altTrue,
      altFalse, altFloat, h1, h2, h3, h4, h5]
  rcases h6 : nan_rule s2 with _ | s3
  case some =>
    simp [scalarBody, firstSuccess, specAlternatives, altNullTilde, altNullWord, altTrue,
      altFalse, altFloat, altNaN, h1, h2, h3, h4, h5, h6]
  rcases h7 : inf_rule s2 with _ | bp
  case some =>
    simp [scalarBody, firstSuccess, specAlternatives, altNullTilde, altNullWord, altTrue,
      altFalse, altFloat, altNaN, altInf, h1, h2, h3, h4, h5, h6, h7]
  rcases h8 : int_rule s2 with _ | s3
  case some =>
    simp [scalarBody, firstSuccess, specAlternatives, altNullTilde, altNullWord, altTrue,
      altFalse, altFloat, altNaN, altInf, altInt, h1, h2, h3, h4, h5, h6, h7, h8]
  rcases h9 : string_flow s2 with _ | p
  case some =>
    simp [scalarBody, firstSuccess, specAlternatives, altNullTilde, altNullWord, altTrue,
      altFalse, altFloat, altNaN, altInf, altInt, altString, h1, h2, h3, h4, h5, h6, h7,
      h8, h9]
  rcases h10 : anchor_use s2 with _ | s3 <;>
    simp [scalarBody, firstSuccess, specAlternatives, altNullTilde, altNullWord, altTrue,
      altFalse, altFloat, altNaN, altInf, altInt, altString, altAlias, h1, h2, h3, h4, h5,
      h6, h7, h8, h9, h10]

/-- `Parser::scalar` refines the spec's wording of the scalar rule. -/
theorem scalar_eq_scalarSpec (s0 : Parser) : scalar s0 = scalarSpec s0 := by
  unfold scalar scalarSpec
  exact scalarBody_eq_firstSuccess _ _ _ _

/-- A terminal failure of the scalar rule aborts the enclosing document rule
unchanged. -/
theorem scalar_error_docRule {s : Parser} {e : PErr} (h : scalar s = .error e) :
    docRule s = .error e := by
  unfold docRule
  rw [h]

end Parser

/-! ## The claims -/

/-- C1: for every two `Node` values whose wrapped `Yaml` payloads are equal,
`n1 == n2` and `hash(n1) == hash(n2)` hold regardless of any difference in
their `pos`, `ty`, or `anchor` fields; equality and hash read only the `yaml`
field. -/
theorem node_eq_hash_yaml_only (hasher : Yaml → Nat) (n1 n2 : Node)
    (h : n1.yaml = n2.yaml) :
    nodeBeq n1 n2 = true ∧ nodeHash hasher n1 = nodeHash hasher n2 := by
  constructor
  · rcases n1 with ⟨p1, t1, a1, y1⟩
    rcases n2 with ⟨p2, t2, a2, y2⟩
    simp only [Node.yaml] at h
    subst h
    simpa [nodeBeq] using yamlBeq_refl y1
  · unfold nodeHash
    rw [h]

/-- Witness for C1 at a concrete pair of nodes differing in all three
metadata fields. -/
theorem node_eq_hash_yaml_only_witness :
    nodeBeq (Node.mk 0 "" "" (.str "k")) (Node.mk 7 "tag" "anc" (.str "k")) = true ∧
    nodeHash (fun _ => 42) (Node.mk 0 "" "" (.str "k")) =
      nodeHash (fun _ => 42) (Node.mk 7 "tag" "anc" (.str "k")) :=
  node_eq_hash_yaml_only (fun _ => 42) _ _ rfl

/-- C2: the scalar rule, after the optional anchor and type-tag tokens and
recording the offset, tries the alternatives in the spec's fixed priority
order with first success winning, and when none succeeds it fails terminally
tagged `"value"` at the recorded offset (`scalarSpec` is that wording);
moreover such an error aborts the enclosing document rule unchanged. -/
theorem scalar_priority_terminal :
    (∀ s : Parser, Parser.scalar s = Parser.scalarSpec s) ∧
    (∀ (s : Parser) (e : PErr), Parser.scalar s = .error e → Parser.docRule s = .error e) :=
  ⟨Parser.scalar_eq_scalarSpec, fun _ _ h => Parser.scalar_error_docRule h⟩

/-- Witness for C2: on empty input the scalar rule fails terminally with tag
`"value"` at offset 0 and the document rule propagates it. -/
theorem scalar_priority_terminal_witness :
    Parser.docRule (Parser.new "") = .error (.terminate 0 "value") :=
  scalar_priority_terminal.2 (Parser.new "") _ rfl

/-- C3 counterexample: a trailing `---` with no following body produces a
`Terminate` error tagged `"value"` (from the scalar rule inside the next
document), not `"splitter"` as the claim states. -/
theorem trailing_marker_counterexample :
    parse "true\n---" = some (.error (.terminate 8 "value")) ∧
    PErr.terminate 8 "value" ≠ PErr.terminate 8 "splitter" :=
  ⟨rfl, by decide⟩

/-- C3 (amended): after the first document, while unconsumed input remains, a
missing `---` after the ignorable run fails with `Terminate(offset,
"splitter")`; a two-body `---`-separated input yields a 2-element document
sequence; but a trailing `---` with no following body produces a `Terminate`
error tagged `"value"` at the offset after the marker (the scalar rule of the
next document fails), not `"splitter"`. -/
theorem document_splitter_behavior :
    (∀ (fuel : Nat) (s : Parser) (acc : List Node), s.food ≠ [] →
      Parser.seq "---".data (Parser.inv s) = none →
      Parser.fdLoop (fuel + 1) s acc =
        some (.error (.terminate (Parser.inv s).pos "splitter"))) ∧
    parse "true\nxyz" = some (.error (.terminate 5 "splitter")) ∧
    parse "true\n---\nfalse" =
      some (.ok [Node.mk 0 "" "" (.bool true), Node.mk 9 "" "" (.bool false)]) ∧
    parse "true\n---" = some (.error (.terminate 8 "value")) := by
  refine ⟨?_, rfl, rfl, rfl⟩
  intro fuel s acc hfood hseq
  rcases hf : s.food with _ | ⟨c, cs⟩
  · exact absurd hf hfood
  · simp [Parser.fdLoop, hf, hseq]

/-- Witness for C3's amended universal part at a concrete state. -/
theorem document_splitter_behavior_witness :
    Parser.fdLoop 1 (Parser.new "x") [] = some (.error (.terminate 0 "splitter")) :=
  document_splitter_behavior.1 0 (Parser.new "x") [] (by decide) rfl

/-- C4: indexing a node never fails: on a non-array/non-map value, an
out-of-range position, or an absent string/integer key the node itself is
returned, and on a hit the contained element/value is returned. -/
theorem index_miss_identity (n : Node) :
    ((∀ a, n.yaml ≠ .arr a) → (∀ m, n.yaml ≠ .map m) →
      (∀ i, n.indexNat i = n) ∧ (∀ s, n.indexStr s = n)) ∧
    (∀ a, n.yaml = .arr a →
      (∀ i, a.length ≤ i → n.indexNat i = n) ∧
      (∀ i e, a.get? i = some e → n.indexNat i = e)) ∧
    (∀ m, n.yaml = .map m →
      (∀ i, mapGet m (Node.new (.int (toString i))) = none → n.indexNat i = n) ∧
      (∀ i v, mapGet m (Node.new (.int (toString i))) = some v → n.indexNat i = v) ∧
      (∀ s, mapGet m (strNode s) = none → n.indexStr s = n) ∧
      (∀ s v, mapGet m (strNode s) = some v → n.indexStr s = v)) := by
  refine ⟨?_, ?_, ?_⟩
  · intro ha hm
    constructor
    · intro i
      cases hy : n.yaml <;> simp [Node.indexNat, hy]
      · exact absurd hy (ha _)
      · exact absurd hy (hm _)
    · intro s
      cases hy : n.yaml <;> simp [Node.indexStr, hy]
      exact absurd hy (hm _)
  · intro a hy
    constructor
    · intro i hlen
      simp [Node.indexNat, hy, List.getElem?_eq_none hlen]
    · intro i e he
      simp only [List.get?_eq_getElem?] at he
      simp [Node.indexNat, hy, he]
  · intro m hy
    refine ⟨fun i hnone => ?_, fun i v hsome => ?_, fun s hnone => ?_, fun s v hsome => ?_⟩
    · simp [Node.indexNat, hy, hnone]
    · simp [Node.indexNat, hy, hsome]
    · simp [Node.indexStr, hy, hnone]
    · simp [Node.indexStr, hy, hsome]

/-- Witness for C4 at concrete nodes: a null node, an array hit and miss, and
a map hit and miss. -/
theorem index_miss_identity_witness :
    (Node.new .null).indexNat 0 = Node.new .null ∧
    (Node.new (.arr [Node.new (.bool true)])).indexNat 5 =
      Node.new (.arr [Node.new (.bool true)]) ∧
    (Node.new (.arr [Node.new (.bool true)])).indexNat 0 = Node.new (.bool true) ∧
    (Node.new (.map [(strNode "a", Node.new (.bool true))])).indexStr "a" =
      Node.new (.bool true) ∧
    (Node.new (.map [(strNode "a", Node.new (.bool true))])).indexStr "b" =
      Node.new (.map [(strNode "a", Node.new (.bool true))]) := by
  refine ⟨?_, ?_, ?_, ?_, ?_⟩
  · exact ((index_miss_identity (Node.new .null)).1 (by simp [Node.new, Node.yaml])
      (by simp [Node.new, Node.yaml])).1 0
  · exact ((index_miss_identity (Node.new (.arr [Node.new (.bool true)]))).2.1
      [Node.new (.bool true)] rfl).1 5 (by simp)
  · exact ((index_miss_identity (Node.new (.arr [Node.new (.bool true)]))).2.1
      [Node.new (.bool true)] rfl).2 0 (Node.new (.bool true)) rfl
  · exact ((index_miss_identity
        (Node.new (.map [(strNode "a", Node.new (.bool true))]))).2.2
      [(strNode "a", Node.new (.bool true))] rfl).2.2.2 "a" (Node.new (.bool true))
      (by simp [mapGet, strNode, Node.new, nodeBeq, yamlBeq])
  · exact ((index_miss_identity
        (Node.new (.map [(strNode "a", Node.new (.bool true))]))).2.2
      [(strNode "a", Node.new (.bool true))] rfl).2.2.1 "b"
      (by simp [mapGet, strNode, Node.new, nodeBeq, yamlBeq])

/-- C5: `with_cursor` sets both the cursor and the commit offset to `p` when
`p` is a character boundary of the text, and otherwise changes nothing, so a
fresh parser given a non-boundary offset still starts at offset 0. -/
theorem with_cursor_boundary :
    (∀ (s : Parser) (p : Nat), is_char_boundary s.doc p = true →
      (s.with_cursor p).pos = p ∧ (s.with_cursor p).eaten = p ∧
      (s.with_cursor p).doc = s.doc) ∧
    (∀ (s : Parser) (p : Nat), is_char_boundary s.doc p = false →
      s.with_cursor p = s) ∧
    (∀ (text : String) (p : Nat), is_char_boundary text.data p = false →
      ((Parser.new text).with_cursor p).pos = 0 ∧
      ((Parser.new text).with_cursor p).eaten = 0) := by
  refine ⟨?_, ?_, ?_⟩
  · intro s p h
    simp [Parser.with_cursor, h]
  · intro s p h
    simp [Parser.with_cursor, h]
  · intro text p h
    simp [Parser.with_cursor, Parser.new, h]

/-- Witness for C5 on `"aé"`: byte offset 3 (the total length) is a boundary
and is accepted; byte offset 2 (inside `é`) is rejected and the fresh
parser's offsets stay 0. -/
theorem with_cursor_boundary_witness :
    ((Parser.new "aé").with_cursor 3).pos = 3 ∧
    ((Parser.new "aé").with_cursor 2).pos = 0 ∧
    ((Parser.new "aé").with_cursor 2).eaten = 0 := by
  refine ⟨(with_cursor_boundary.1 (Parser.new "aé") 3 rfl).1, ?_, ?_⟩
  · exact (with_cursor_boundary.2.2 "aé" 2 rfl).1
  · exact (with_cursor_boundary.2.2 "aé" 2 rfl).2

/-- C6: keyed lookup descends nested maps key by key — a non-map value found
for the current key is returned even when keys remain; a map value with keys
remaining continues the descent; an absent key yields `None` from `as_get`
and the caller's error from `except_get`. -/
theorem as_get_descends (m : List (Node × Node)) (k : String) (rest : List String)
    (e : String) (n : Node) (hy : n.yaml = .map m) :
    (∀ v, mapGet m (strNode k) = some v → (∀ m2, v.yaml ≠ .map m2) →
      n.as_get (k :: rest) = .found v ∧ n.except_get (k :: rest) e = .ok v) ∧
    (∀ v m2, mapGet m (strNode k) = some v → v.yaml = .map m2 → rest ≠ [] →
      n.as_get (k :: rest) = get_from_map m2 rest) ∧
    (∀ v m2, mapGet m (strNode k) = some v → v.yaml = .map m2 → rest = [] →
      n.as_get (k :: rest) = .found v) ∧
    (mapGet m (strNode k) = none →
      n.as_get (k :: rest) = .missing ∧ n.except_get (k :: rest) e = .err e) := by
  refine ⟨?_, ?_, ?_, ?_⟩
  · intro v hv hnm
    cases yv : v.yaml <;>
      simp [Node.as_get, Node.except_get, get_from_map, hy, hv, yv]
    exact absurd yv (hnm _)
  · intro v m2 hv hm2 hrest
    simp [Node.as_get, get_from_map, hy, hv, hm2, List.isEmpty_iff.ne.mpr hrest]
  · intro v m2 hv hm2 hrest
    subst hrest
    simp [Node.as_get, get_from_map, hy, hv, hm2]
  · intro hnone
    simp [Node.as_get, Node.except_get, get_from_map, hy, hnone]

/-- Witness for C6: a non-map value is returned although a key remains in the
chain, both through `as_get` and `except_get`. -/
theorem as_get_descends_witness :
    (Node.new (.map [(strNode "a", Node.new (.str "v"))])).as_get ["a", "zzz"] =
      .found (Node.new (.str "v")) ∧
    (Node.new (.map [(strNode "a", Node.new (.str "v"))])).except_get ["a", "zzz"] "E" =
      .ok (Node.new (.str "v")) :=
  (as_get_descends [(strNode "a", Node.new (.str "v"))] "a" ["zzz"] "E"
    (Node.new (.map [(strNode "a", Node.new (.str "v"))])) rfl).1
    (Node.new (.str "v"))
    (by simp [mapGet, strNode, Node.new, nodeBeq, yamlBeq])
    (by simp [Node.new, Node.yaml])

/-- C7: a Null value is a valid elided default for the string and array
accessors (`Ok("")` / an empty iteration), but `except_get` requires a
literal Map variant and returns the caller's error on Null. -/
theorem null_elided_defaults (n : Node) (e : String) (keys : List String)
    (h : n.yaml = .null) :
    n.except_str e = .ok "" ∧ n.except_string e = .ok "" ∧
    n.except_array e = .ok (0, []) ∧ n.except_get keys e = .err e := by
  refine ⟨?_, ?_, ?_, ?_⟩ <;>
    simp [Node.except_str, Node.except_string, Node.except_array, Node.except_get, h]

/-- Witness for C7 at the null node. -/
theorem null_elided_defaults_witness :
    (Node.new .null).except_str "E" = .ok "" ∧
    (Node.new .null).except_string "E" = .ok "" ∧
    (Node.new .null).except_array "E" = .ok (0, []) ∧
    (Node.new .null).except_get ["k"] "E" = .err "E" :=
  null_elided_defaults (Node.new .null) "E" ["k"] rfl

/-- C8: `parse` always terminates with a result — a document sequence or a
terminal error — because every accepted iteration of the splitter loop
strictly advances the cursor (the fuel bound of the loop model is never
reached). -/
theorem parse_terminates :
    (∀ text : String, (parse text).isSome = true) ∧
    (∀ s : Parser, (Parser.full_doc s).isSome = true) := by
  constructor
  · intro t
    unfold parse
    rcases h : Parser.full_doc (Parser.new t) with _ | r
    · have htotal := Parser.full_doc_total (Parser.new t)
      rw [h] at htotal
      exact absurd htotal (by simp)
    · simp
  · exact Parser.full_doc_total

/-- C9: `parse("true")` yields exactly one document with value `Bool(true)`;
`parse("~")` and `parse("null")` each yield exactly one document with value
`Null`. -/
theorem parse_simple_scalars :
    parse "true" = some (.ok [Node.mk 0 "" "" (.bool true)]) ∧
    parse "~" = some (.ok [Node.mk 0 "" "" .null]) ∧
    parse "null" = some (.ok [Node.mk 0 "" "" .null]) :=
  ⟨rfl, rfl, rfl⟩

/-- C10: on a map-valued node, keyed lookup with an empty key slice panics
("invalid search!") in both `as_get` and `except_get` instead of returning
`None` or an error. -/
theorem empty_keys_panic (n : Node) (m : List (Node × Node)) (e : String)
    (h : n.yaml = .map m) :
    n.as_get [] = .panicked ∧ n.except_get [] e = .panicked := by
  constructor <;> simp [Node.as_get, Node.except_get, get_from_map, h]

/-- Witness for C10 at a concrete one-entry map. -/
theorem empty_keys_panic_witness :
    (Node.new (.map [(strNode "a", Node.new .null)])).as_get [] = .panicked ∧
    (Node.new (.map [(strNode "a", Node.new .null)])).except_get [] "E" = .panicked :=
  empty_keys_panic _ [(strNode "a", Node.new .null)] "E" rfl

end YamlPeg
